import Mathlib

set_option maxRecDepth 10000

/-
Shallow embedding of jacks808/gojson (src/gojson.go).

Modelling conventions:
  * Go `interface{}` values that can appear as JSON data are the inductive
    `Value`.  The raw decoded container types `map[string]interface{}` and
    `[]interface{}` are `Value.vmap` / `Value.arr`; the named convenience
    types `Dict` and `List` (distinct dynamic types for Go type switches and
    type assertions) are `Value.dict` / `Value.list`.  A `*GoJson` pointer
    stored inside an `interface{}` is `Value.node id`.
  * Go maps are association lists (iteration order of a Go map is
    unspecified; the list order is one admissible order).  Map assignment is
    update-or-insert, lookup of an absent key yields the zero value `nil`,
    i.e. `Value.null`.
  * `*GoJson` pointers form a heap: nodes are addressed by `Nat` ids,
    `Heap.mem : Nat → GoJson` with `Heap.sz` the next fresh address.
    In-place mutation of a node (`j.data = ...`, or the in-place map/slice
    element writes of `setMap`/`setSlice` observed through that node) is
    modelled by updating the node's entry in the heap.
  * Go runtime panics (out-of-range slice indexing, the `panic` in `Keys`)
    are `Except.error`; normal returns are `Except.ok`.  Error/panic message
    texts elide Go's `%v` formatting of the offending value.
  * Machine integers carry their mathematical value (`Int`/`Nat`); the
    64-bit wraparound of Go's `int(v)` conversion from `uint` is explicit in
    `wrapInt64`.  `float64`/`float32` are modelled as exact rationals; the
    only float operations the claims exercise are exact small-integer
    conversions.  `strconv.Atoi`/`ParseInt` (the spec lists standard-library
    numeric parsing as an external collaborator) is modelled by `goAtoi`:
    optional sign, decimal digits, 64-bit signed range check.
  * Go string length/slicing is modelled per character unit.
-/

namespace Gojson

/-- Value models the Go `interface{}` data stored in a GoJson node: JSON
scalars, the raw decoded containers, the named Dict/List containers, the Go
numeric width variants, and a `*GoJson` pointer stored as data. -/
inductive Value where
  | null
  | boolV (b : Bool)
  | number (s : String)
  | str (s : String)
  | intV (n : Int)
  | int8V (n : Int)
  | int16V (n : Int)
  | int32V (n : Int)
  | int64V (n : Int)
  | uintV (n : Nat)
  | uint8V (n : Nat)
  | uint16V (n : Nat)
  | uint32V (n : Nat)
  | uint64V (n : Nat)
  | float32V (q : ℚ)
  | float64V (q : ℚ)
  | vmap (m : List (String × Value))
  | arr (l : List Value)
  | dict (m : List (String × Value))
  | list (l : List Value)
  | node (id : Nat)

/-- GoJson models the struct of the same name: parent pointer, the key or
index under which this node was reached, and the wrapped data.  The unused
RWMutex is omitted (never engaged by any operation). -/
structure GoJson where
  prev : Option Nat
  prevKey : String
  prevIndex : Int
  data : Value

instance : Inhabited GoJson := ⟨⟨none, "", 0, Value.null⟩⟩

/-- Heap of allocated GoJson nodes, addressed by Nat ids below sz. -/
structure Heap where
  mem : Nat → GoJson
  sz : Nat

/-- Read a node from the heap (a Go pointer dereference). -/
def getN (h : Heap) (i : Nat) : GoJson := h.mem i

/-- Pointwise function update used for heap writes. -/
def hset (f : Nat → GoJson) (i : Nat) (a : GoJson) : Nat → GoJson :=
  fun j => if j = i then a else f j

/-- Overwrite the node at address i (in-place mutation of *GoJson). -/
def setN (h : Heap) (i : Nat) (a : GoJson) : Heap :=
  ⟨hset h.mem i a, h.sz⟩

theorem hset_same (f : Nat → GoJson) (i : Nat) (a : GoJson) :
    hset f i a i = a := by
  simp [hset]

theorem hset_other (f : Nat → GoJson) (i j : Nat) (a : GoJson) (hij : j ≠ i) :
    hset f i a j = f j := by
  simp [hset, hij]

/-- Association-list lookup, modelling Go map indexing `v[key]` before the
zero-value defaulting. -/
def lookupA (k : String) : List (String × Value) → Option Value
  | [] => none
  | (k', v) :: rest => if k' = k then some v else lookupA k rest

/-- Association-list update-or-insert, modelling Go map assignment
`v[key] = val`. -/
def setAssoc (k : String) (v : Value) : List (String × Value) → List (String × Value)
  | [] => [(k, v)]
  | (k', v') :: rest =>
      if k' = k then (k, v) :: rest else (k', v') :: setAssoc k v rest

/-- The `data.(*GoJson)` check followed by `value.Value()`: a stored node
pointer is replaced by that node's data, anything else passes through. -/
def unwrapIn (h : Heap) : Value → Value
  | Value.node i => (getN h i).data
  | v => v

/-- getMap (gojson.go:129-138): both map types index; other shapes report
failure via the boolean.  `some` is Go's `(value, true)` (absent keys give
the zero value nil), `none` is `(nil, false)`. -/
def getMap (key : String) : Value → Option Value
  | Value.vmap m => some ((lookupA key m).getD Value.null)
  | Value.dict m => some ((lookupA key m).getD Value.null)
  | _ => none

/-- setMap (gojson.go:158-176): unwraps a *GoJson argument, then assigns
into either map type in place; returns the updated container, or none when
the body is not a map. -/
def setMap (h : Heap) (key : String) (mapBody dataArg : Value) : Option Value :=
  let val := unwrapIn h dataArg
  match mapBody with
  | Value.vmap m => some (Value.vmap (setAssoc key val m))
  | Value.dict m => some (Value.dict (setAssoc key val m))
  | _ => none

/-- getSlice (gojson.go:178-187): for the two slice types the element access
`v[key]` is unchecked, so an out-of-range index is a runtime panic
(Except.error); other shapes return `(nil, false)`, here `ok none`. -/
def getSlice (key : Int) : Value → Except String (Option Value)
  | Value.arr l =>
      if 0 ≤ key ∧ key.toNat < l.length then
        Except.ok (some (l.getD key.toNat Value.null))
      else Except.error "runtime error: index out of range"
  | Value.list l =>
      if 0 ≤ key ∧ key.toNat < l.length then
        Except.ok (some (l.getD key.toNat Value.null))
      else Except.error "runtime error: index out of range"
  | _ => Except.ok none

/-- appendSlice (gojson.go:189-207): unwraps a *GoJson argument and appends
to either slice type; non-slices report failure. -/
def appendSlice (h : Heap) (sliceBody dataArg : Value) : Option Value :=
  let val := unwrapIn h dataArg
  match sliceBody with
  | Value.arr l => some (Value.arr (l ++ [val]))
  | Value.list l => some (Value.list (l ++ [val]))
  | _ => none

/-- setSlice (gojson.go:209-227): unwraps a *GoJson argument, then the
element write `v[index] = val` is unchecked: out of range panics. -/
def setSlice (h : Heap) (index : Int) (sliceBody dataArg : Value) :
    Except String (Option Value) :=
  let val := unwrapIn h dataArg
  match sliceBody with
  | Value.arr l =>
      if 0 ≤ index ∧ index.toNat < l.length then
        Except.ok (some (Value.arr (l.set index.toNat val)))
      else Except.error "runtime error: index out of range"
  | Value.list l =>
      if 0 ≤ index ∧ index.toNat < l.length then
        Except.ok (some (Value.list (l.set index.toNat val)))
      else Except.error "runtime error: index out of range"
  | _ => Except.ok none

/-- insertSlice (gojson.go:229-249): copies the tail `v[index:]` (panic when
index is outside 0..len), then rebuilds prefix ++ value ++ tail.  This is
the slice the CALLER receives (the child's new data); the in-place writes
Go's append performs on the shared backing array, visible through every
alias of the old slice, are modelled by insertAliasEffect below. -/
def insertSlice (h : Heap) (index : Int) (sliceBody dataArg : Value) :
    Except String (Option Value) :=
  let val := unwrapIn h dataArg
  match sliceBody with
  | Value.arr l =>
      if 0 ≤ index ∧ index.toNat ≤ l.length then
        Except.ok (some (Value.arr (l.take index.toNat ++ val :: l.drop index.toNat)))
      else Except.error "runtime error: slice bounds out of range"
  | Value.list l =>
      if 0 ≤ index ∧ index.toNat ≤ l.length then
        Except.ok (some (Value.list (l.take index.toNat ++ val :: l.drop index.toNat)))
      else Except.error "runtime error: slice bounds out of range"
  | _ => Except.ok none

/-- The effect of insertSlice's two appends (gojson.go:239-241/243-245) on
the shared backing array, as read back through an alias of the original
slice (length v.length), for an insert position index < v.length and any
capacity c with v.length ≤ c.  Go semantics: `append(v[0:index], val)`
reuses the backing array (index < v.length ≤ c) and writes val at position
index; the second `append(v, rear...)` needs v.length + 1 slots, so with
c ≥ v.length + 1 it also shifts the old tail in place one slot right
(the alias, of length v.length, sees the tail shifted and its last old
element gone), while with c = v.length it reallocates and the alias sees
only position index overwritten.  In both regimes the alias's element at
index becomes val: the aliased container is mutated. -/
def insertAliasEffect (c : Nat) (v : List Value) (index : Nat) (val : Value) :
    List Value :=
  if v.length + 1 ≤ c then
    v.take index ++ val :: (v.drop index).take (v.length - index - 1)
  else
    v.set index val

/-- The two dynamic key types Go's Set switches over. -/
inductive GoKey where
  | s (k : String)
  | i (n : Int)

/-- Get (gojson.go:252-267): child node holding the looked-up value, or a
nil-data child with the same parent linkage when the data is not a map.
prevIndex stays at its zero value 0.  The child is a fresh allocation. -/
def Get (h : Heap) (id : Nat) (key : String) : Heap × Nat :=
  let j := getN h id
  let child : GoJson :=
    match getMap key j.data with
    | some m => ⟨some id, key, 0, m⟩
    | none => ⟨some id, key, 0, Value.null⟩
  (⟨hset h.mem h.sz child, h.sz + 1⟩, h.sz)

/-- Index (gojson.go:361-376): same as Get for slice position key, setting
prevIndex; a panic inside getSlice propagates. -/
def Index (h : Heap) (id : Nat) (key : Int) : Except String (Heap × Nat) :=
  let j := getN h id
  match getSlice key j.data with
  | Except.error e => Except.error e
  | Except.ok none =>
      Except.ok (⟨hset h.mem h.sz ⟨some id, "", key, Value.null⟩, h.sz + 1⟩, h.sz)
  | Except.ok (some v) =>
      Except.ok (⟨hset h.mem h.sz ⟨some id, "", key, v⟩, h.sz + 1⟩, h.sz)

/-- Set (gojson.go:379-395): string keys go through setMap, int keys through
setSlice; a shape mismatch logs and returns the receiver unchanged.  The
in-place container mutation is written back to the node's heap entry. -/
def Set (h : Heap) (id : Nat) (key : GoKey) (val : Value) : Except String Heap :=
  let j := getN h id
  match key with
  | GoKey.s k =>
      match setMap h k j.data val with
      | some newBody => Except.ok (setN h id { j with data := newBody })
      | none => Except.ok h
  | GoKey.i n =>
      match setSlice h n j.data val with
      | Except.error e => Except.error e
      | Except.ok (some newBody) => Except.ok (setN h id { j with data := newBody })
      | Except.ok none => Except.ok h

/-- maintainParent (gojson.go:285-296): only when the parent's Value() is the
raw map or raw slice type does the child write itself back via parent.Set;
Dict, List and every other parent shape fall through the type switch. -/
def maintainParent (h : Heap) (id : Nat) : Except String Heap :=
  let child := getN h id
  match child.prev with
  | none => Except.ok h
  | some pid =>
      match (getN h pid).data with
      | Value.vmap _ => Set h pid (GoKey.s child.prevKey) (Value.node id)
      | Value.arr _ => Set h pid (GoKey.i child.prevIndex) (Value.node id)
      | _ => Except.ok h

/-- Append (gojson.go:299-316): unwraps a *GoJson argument, appends via
appendSlice (which unwraps again), stores the new slice into the node, then
runs maintainParent; a non-slice receiver logs and returns unchanged. -/
def Append (h : Heap) (id : Nat) (val : Value) : Except String Heap :=
  let v := unwrapIn h val
  let j := getN h id
  match appendSlice h j.data v with
  | none => Except.ok h
  | some newData => maintainParent (setN h id { j with data := newData }) id

/-- Insert (gojson.go:319-328): insertSlice then maintainParent; non-slice
receivers log and return unchanged. -/
def Insert (h : Heap) (id : Nat) (index : Int) (val : Value) : Except String Heap :=
  let j := getN h id
  match insertSlice h index j.data val with
  | Except.error e => Except.error e
  | Except.ok none => Except.ok h
  | Except.ok (some newData) => maintainParent (setN h id { j with data := newData }) id

/-- IsNil (gojson.go:331-336). -/
def IsNil (j : GoJson) : Bool :=
  match j.data with
  | Value.null => true
  | _ => false

/-- IsSlice (gojson.go:339-348). -/
def IsSliceV : Value → Bool
  | Value.list _ => true
  | Value.arr _ => true
  | _ => false

/-- IsMap (gojson.go:351-358). -/
def IsMapV : Value → Bool
  | Value.dict _ => true
  | Value.vmap _ => true
  | _ => false

/-- Len (gojson.go:422-431): slice length, 0 for any other shape. -/
def LenV : Value → Nat
  | Value.arr l => l.length
  | Value.list l => l.length
  | _ => 0

/-- Keys (gojson.go:141-156): nil data returns the empty (nil) slice; only
the raw map type passes the type assertion; anything else panics. -/
def Keys : Value → Except String (List String)
  | Value.null => Except.ok []
  | Value.vmap m => Except.ok (m.map Prod.fst)
  | _ => Except.error "Input invalid error"

/-- Accumulate decimal digits; any non-digit character fails the parse. -/
def parseDigitsAux : List Char → Nat → Option Nat
  | [], acc => some acc
  | c :: rest, acc =>
      if '0' ≤ c ∧ c ≤ '9' then
        parseDigitsAux rest (acc * 10 + (c.toNat - '0'.toNat))
      else none

/-- Modelled standard-library collaborator `strconv.Atoi` (= ParseInt base
10, 64-bit): optional single sign, at least one digit, signed 64-bit range
check; `none` is a non-nil error (syntax or range). -/
def goAtoi (s : String) : Option Int :=
  let core : List Char → Bool → Option Int := fun cs neg =>
    match cs with
    | [] => none
    | _ =>
        match parseDigitsAux cs 0 with
        | none => none
        | some n =>
            if neg then
              if n ≤ 2 ^ 63 then some (-(n : Int)) else none
            else
              if n ≤ 2 ^ 63 - 1 then some (n : Int) else none
  match s.data with
  | '+' :: rest => core rest false
  | '-' :: rest => core rest true
  | cs => core cs false

/-- Modelled standard-library collaborator `strconv.ParseFloat` restricted
to sign, integer digits and an optional fraction (no exponent; no claim
exercises textual float parsing). -/
def goParseFloat (s : String) : Option ℚ :=
  let core : List Char → Option ℚ := fun cs =>
    let ip := cs.takeWhile (fun c => c ≠ '.')
    match cs.dropWhile (fun c => c ≠ '.') with
    | [] =>
        match parseDigitsAux ip 0 with
        | some n => if ip = [] then none else some (n : ℚ)
        | none => none
    | _ :: frac =>
        match parseDigitsAux ip 0, parseDigitsAux frac 0 with
        | some n, some f =>
            if ip = [] ∧ frac = [] then none
            else some ((n : ℚ) + (f : ℚ) / ((10 : ℚ) ^ frac.length))
        | _, _ => none
  match s.data with
  | '+' :: rest => core rest
  | '-' :: rest => (core rest).map (fun q => -q)
  | cs => core cs

/-- Go's `int(v)` conversion of a 64-bit unsigned value: two's-complement
wraparound into the signed 64-bit range. -/
def wrapInt64 (v : Nat) : Int :=
  if v % 2 ^ 64 < 2 ^ 63 then ((v % 2 ^ 64 : Nat) : Int)
  else ((v % 2 ^ 64 : Nat) : Int) - 2 ^ 64

/-- Go's float-to-int conversion truncates toward zero. -/
def ratTrunc (q : ℚ) : Int :=
  if q < 0 then -(Int.floor (-q)) else Int.floor q

/-- strings.Contains(v, ".") on the character model. -/
def containsDot (s : String) : Bool :=
  s.data.contains '.'

/-- strings.Split on the single-character separator '.': the list of
maximal '.'-free segments, as Go returns it. -/
def splitDot : List Char → List (List Char)
  | [] => [[]]
  | c :: rest =>
      if c = '.' then [] :: splitDot rest
      else
        match splitDot rest with
        | h :: t => (c :: h) :: t
        | [] => [[c]]

/-- ToInt (gojson.go:689-736).  The source's type switch, case by case:
json.Number parses via Int64 (ParseInt); every fixed-width signed case and
uint8/16/32 convert exactly; uint converts with unchecked 64-bit wraparound;
only uint64 is overflow-checked; floats truncate; strings are truncated at
the first '.' (Contains + Split) with the empty remainder returning 0;
everything else, and a failed Atoi, reaches the bottom error. -/
def ToInt : Value → Except String Int
  | Value.number s =>
      match goAtoi s with
      | some n => Except.ok n
      | none => Except.error "invalid number"
  | Value.intV n => Except.ok n
  | Value.int8V n => Except.ok n
  | Value.int16V n => Except.ok n
  | Value.int32V n => Except.ok n
  | Value.int64V n => Except.ok n
  | Value.uintV v => Except.ok (wrapInt64 v)
  | Value.uint8V v => Except.ok v
  | Value.uint16V v => Except.ok v
  | Value.uint32V v => Except.ok v
  | Value.uint64V v =>
      if v > 2 ^ 63 - 1 then Except.error "ToInt, error, overflowd"
      else Except.ok v
  | Value.float32V q => Except.ok (ratTrunc q)
  | Value.float64V q => Except.ok (ratTrunc q)
  | Value.str s =>
      let strv := if containsDot s then String.mk ((splitDot s.data).headD []) else s
      if strv = "" then Except.ok 0
      else
        match goAtoi strv with
        | some n => Except.ok n
        | none => Except.error "cannot convert to int"
  | _ => Except.error "cannot convert to int"

/-- ToFloat64 (gojson.go:738-755).  json.Number parses via Float64; the
integer case list (which omits int32!) routes through ToInt and converts the
result; float64/float32 pass through (exact rational model); strings parse
via ParseFloat, falling through to the bottom error on failure; every other
shape (including int32) reaches the bottom error. -/
def ToFloat64 : Value → Except String ℚ
  | Value.number s =>
      match goParseFloat s with
      | some q => Except.ok q
      | none => Except.error "invalid number"
  | Value.intV n =>
      match ToInt (Value.intV n) with
      | Except.ok m => Except.ok (m : ℚ)
      | Except.error e => Except.error e
  | Value.int8V n =>
      match ToInt (Value.int8V n) with
      | Except.ok m => Except.ok (m : ℚ)
      | Except.error e => Except.error e
  | Value.int16V n =>
      match ToInt (Value.int16V n) with
      | Except.ok m => Except.ok (m : ℚ)
      | Except.error e => Except.error e
  | Value.int64V n =>
      match ToInt (Value.int64V n) with
      | Except.ok m => Except.ok (m : ℚ)
      | Except.error e => Except.error e
  | Value.uintV v =>
      match ToInt (Value.uintV v) with
      | Except.ok m => Except.ok (m : ℚ)
      | Except.error e => Except.error e
  | Value.uint8V v =>
      match ToInt (Value.uint8V v) with
      | Except.ok m => Except.ok (m : ℚ)
      | Except.error e => Except.error e
  | Value.uint16V v =>
      match ToInt (Value.uint16V v) with
      | Except.ok m => Except.ok (m : ℚ)
      | Except.error e => Except.error e
  | Value.uint32V v =>
      match ToInt (Value.uint32V v) with
      | Except.ok m => Except.ok (m : ℚ)
      | Except.error e => Except.error e
  | Value.uint64V v =>
      match ToInt (Value.uint64V v) with
      | Except.ok m => Except.ok (m : ℚ)
      | Except.error e => Except.error e
  | Value.float64V q => Except.ok q
  | Value.float32V q => Except.ok q
  | Value.str s =>
      match goParseFloat s with
      | some q => Except.ok q
      | none => Except.error "cannot convert to float"
  | _ => Except.error "cannot convert to float"

/-- GoJson.Int (gojson.go:473-479): nil data errors immediately, otherwise
delegates to ToInt. -/
def nodeInt (j : GoJson) : Except String Int :=
  match j.data with
  | Value.null => Except.error "is not int"
  | d => ToInt d

/-- GoJson.Float64 (gojson.go:482-488): nil data errors immediately,
otherwise delegates to ToFloat64. -/
def nodeFloat64 (j : GoJson) : Except String ℚ :=
  match j.data with
  | Value.null => Except.error "is not float64"
  | d => ToFloat64 d

/-- The object braces as characters, by code point. -/
def lbrace : Char := Char.ofNat 123

def rbrace : Char := Char.ofNat 125

/-- JSON insignificant whitespace skipping. -/
def skipWs : List Char → List Char
  | c :: rest =>
      if c = ' ' ∨ c = '\t' ∨ c = '\n' ∨ c = '\r' then skipWs rest else c :: rest
  | [] => []

/-- Match an expected literal suffix (the rest of null/true/false). -/
def expectChars : List Char → List Char → Option (List Char)
  | [], cs => some cs
  | _ :: _, [] => none
  | e :: es, c :: cs => if c = e then expectChars es cs else none

/-- Simplified JSON string escapes (no \u sequences; the claims never
exercise escaped text). -/
def unescapeChar (e : Char) : Char :=
  if e = 'n' then '\n' else if e = 't' then '\t' else if e = 'r' then '\r' else e

/-- Body of a JSON string after the opening quote: returns the decoded text
and the remainder after the closing quote. -/
def parseStringBody : List Char → List Char → Option (String × List Char)
  | [], _ => none
  | c :: rest, acc =>
      if c = '\"' then some (String.mk acc.reverse, rest)
      else if c = '\\' then
        match rest with
        | [] => none
        | e :: rest2 => parseStringBody rest2 (unescapeChar e :: acc)
      else parseStringBody rest (c :: acc)

def isDigit (c : Char) : Bool :=
  '0' ≤ c ∧ c ≤ '9'

/-- A JSON number token kept as its literal text (the decoder runs with
UseNumber, gojson.go:70, so decoded numbers stay textual json.Number):
optional minus, integer digits without a leading zero, optional fraction,
optional exponent. -/
def parseNumberTok (cs : List Char) : Option (Value × List Char) :=
  let core : List Char → Option (List Char × List Char) := fun ds =>
    let ip := ds.takeWhile isDigit
    let rest1 := ds.drop ip.length
    if ip = [] then none
    else if 1 < ip.length ∧ ip.headD '0' = '0' then none
    else
      match rest1 with
      | '.' :: r2 =>
          let fp := r2.takeWhile isDigit
          if fp = [] then none
          else some (ip ++ '.' :: fp, r2.drop fp.length)
      | _ => some (ip, rest1)
  let expPart : List Char × List Char → Option (List Char × List Char) := fun p =>
    match p.2 with
    | c :: r2 =>
        if c = 'e' ∨ c = 'E' then
          let (sgn, r3) :=
            match r2 with
            | s :: r3 => if s = '+' ∨ s = '-' then ([s], r3) else (([] : List Char), s :: r3)
            | [] => ([], [])
          let ep := r3.takeWhile isDigit
          if ep = [] then none
          else some (p.1 ++ c :: sgn ++ ep, r3.drop ep.length)
        else some p
    | [] => some p
  match cs with
  | '-' :: rest =>
      match core rest with
      | none => none
      | some p =>
          match expPart p with
          | none => none
          | some q => some (Value.number (String.mk ('-' :: q.1)), q.2)
  | _ =>
      match core cs with
      | none => none
      | some p =>
          match expPart p with
          | none => none
          | some q => some (Value.number (String.mk q.1), q.2)

/-- Parser mode: a plain value, or the element loop of an array or object
with the elements decoded so far. -/
inductive PMode where
  | val
  | arr (acc : List Value)
  | obj (acc : List (String × Value))

/-- Modelled decoder collaborator (decodeJson, gojson.go:67-76; the spec
treats the JSON text decoder as an external black box): one JSON value by
recursive descent, structurally on a fuel bound (each step consumes fuel,
and nesting plus element count never exceeds the input length, so
2 * length + 2 fuel always suffices).  Arrays decode to the raw slice shape
and objects to the raw map shape, exactly as encoding/json decodes into
untyped interface values; numbers stay textual (UseNumber). -/
def parseStep : Nat → PMode → List Char → Option (Value × List Char)
  | 0, _, _ => none
  | Nat.succ fuel, PMode.val, cs =>
      match skipWs cs with
      | [] => none
      | c :: rest =>
          if c = 'n' then (expectChars ['u', 'l', 'l'] rest).map (fun r => (Value.null, r))
          else if c = 't' then
            (expectChars ['r', 'u', 'e'] rest).map (fun r => (Value.boolV true, r))
          else if c = 'f' then
            (expectChars ['a', 'l', 's', 'e'] rest).map (fun r => (Value.boolV false, r))
          else if c = '\"' then
            (parseStringBody rest []).map (fun p => (Value.str p.1, p.2))
          else if c = '[' then
            match skipWs rest with
            | ']' :: r2 => some (Value.arr [], r2)
            | t => parseStep fuel (PMode.arr []) t
          else if c = lbrace then
            match skipWs rest with
            | [] => none
            | d :: r2 => if d = rbrace then some (Value.vmap [], r2)
                else parseStep fuel (PMode.obj []) (d :: r2)
          else parseNumberTok (c :: rest)
  | Nat.succ fuel, PMode.arr acc, cs =>
      match parseStep fuel PMode.val cs with
      | none => none
      | some (v, rest) =>
          match skipWs rest with
          | [] => none
          | c :: rest2 =>
              if c = ',' then parseStep fuel (PMode.arr (acc ++ [v])) rest2
              else if c = ']' then some (Value.arr (acc ++ [v]), rest2)
              else none
  | Nat.succ fuel, PMode.obj acc, cs =>
      match skipWs cs with
      | '\"' :: rest =>
          match parseStringBody rest [] with
          | none => none
          | some (k, rest2) =>
              match skipWs rest2 with
              | ':' :: rest3 =>
                  match parseStep fuel PMode.val rest3 with
                  | none => none
                  | some (v, rest4) =>
                      match skipWs rest4 with
                      | [] => none
                      | c :: rest5 =>
                          if c = ',' then
                            parseStep fuel (PMode.obj (acc ++ [(k, v)])) rest5
                          else if c = rbrace then
                            some (Value.vmap (acc ++ [(k, v)]), rest5)
                          else none
              | _ => none
      | _ => none

/-- Decoder.Decode reads one value from the front of the stream and leaves
the rest unread (decode errors surface; trailing data does not). -/
def decodeJsonV (s : String) : Option Value :=
  (parseStep (2 * s.data.length + 2) PMode.val s.data).map Prod.fst

/-- NewJson (gojson.go:57-66): string data is re-parsed as JSON text by
NewJsonFromString (gojson.go:89-96), a decode failure being swallowed into
an empty wrapper with nil data; every other shape in the Value model takes
the default branch and is wrapped unchanged by NewJsonFromData (a Go
json.Number or Dict/List does NOT match `case string`, being a distinct
dynamic type).  The []byte case is outside the Value model. -/
def NewJsonV (v : Value) : Value :=
  match v with
  | Value.str s =>
      match decodeJsonV s with
      | some d => d
      | none => Value.null
  | d => d

/-- handlerString (gojson.go:606-611): when cutting, a string of more than
120 units is cut to its first 120 units plus the "......" marker. -/
def handlerString (js : String) (cut : Bool) : String :=
  if cut ∧ 120 < js.length then String.mk (js.data.take 120) ++ "......" else js

mutual

/-- handlerVal (gojson.go:559-574): type switch; both map shapes rebuild as
a Dict (the body of handlerMap on a map-shaped argument), both slice shapes
rebuild as a List, strings go through handlerString, all other scalars pass
through unchanged. -/
def handlerVal : Value → Bool → Value
  | Value.dict m, cut => Value.dict (handlerPairs m cut)
  | Value.vmap m, cut => Value.dict (handlerPairs m cut)
  | Value.list l, cut => Value.list (handlerElems l cut)
  | Value.arr l, cut => Value.list (handlerElems l cut)
  | Value.str s, cut => Value.str (handlerString s cut)
  | v, _ => v

/-- The entry loop of handlerMap (gojson.go:576-589): a fresh Dict is filled
with every key mapped to the handled value. -/
def handlerPairs : List (String × Value) → Bool → List (String × Value)
  | [], _ => []
  | (k, v) :: rest, cut => (k, handlerVal v cut) :: handlerPairs rest cut

/-- The element loop of handlerSlice (gojson.go:591-604): a fresh List
receives every handled element in order. -/
def handlerElems : List Value → Bool → List Value
  | [], _ => []
  | v :: rest, cut => handlerVal v cut :: handlerElems rest cut

end

/-- handlerMap's outer type switch (gojson.go:576-589): non-map input
leaves the fresh Dict empty. -/
def handlerMap (js : Value) (cut : Bool) : List (String × Value) :=
  match js with
  | Value.dict m => handlerPairs m cut
  | Value.vmap m => handlerPairs m cut
  | _ => []

/-- handlerSlice's outer type switch (gojson.go:591-604). -/
def handlerSlice (js : Value) (cut : Bool) : List Value :=
  match js with
  | Value.list l => handlerElems l cut
  | Value.arr l => handlerElems l cut
  | _ => []

/-- ShortNiceJson (gojson.go:614-623): every return goes through NewJson.
A container root is rebuilt with cutLongStr=true and the resulting List or
Dict takes NewJson's default branch (wrapped unchanged); any other root is
passed to NewJson(j.data), so in particular a bare string root is re-parsed
as JSON text, not truncated. -/
def ShortNiceJsonV (v : Value) : Value :=
  if IsSliceV v then NewJsonV (Value.list (handlerSlice v true))
  else if IsMapV v then NewJsonV (Value.dict (handlerMap v true))
  else NewJsonV v

/-- Clone (gojson.go:626-635): the same rebuild with cutLongStr=false, with
the same NewJson routing: a string-rooted node is re-parsed rather than
copied. -/
def CloneV (v : Value) : Value :=
  if IsSliceV v then NewJsonV (Value.list (handlerSlice v false))
  else if IsMapV v then NewJsonV (Value.dict (handlerMap v false))
  else NewJsonV v

mutual

/-- Canonical JSON shape of a Value: forgets the raw-versus-named container
distinction (vmap and dict both become dict, arr and list both become list)
so that trees can be compared as JSON structures. -/
def eraseV : Value → Value
  | Value.vmap m => Value.dict (erasePairs m)
  | Value.dict m => Value.dict (erasePairs m)
  | Value.arr l => Value.list (eraseElems l)
  | Value.list l => Value.list (eraseElems l)
  | v => v

def erasePairs : List (String × Value) → List (String × Value)
  | [] => []
  | (k, v) :: rest => (k, eraseV v) :: erasePairs rest

def eraseElems : List Value → List Value
  | [] => []
  | v :: rest => eraseV v :: eraseElems rest

end

mutual

/-- Spec-side definition (for the ShortNiceJson claim): rebuild the tree
applying f to every string leaf, leaving every container shape and every
non-string leaf unchanged. -/
def specMapLeaves (f : String → String) : Value → Value
  | Value.str s => Value.str (f s)
  | Value.vmap m => Value.vmap (specMapPairs f m)
  | Value.dict m => Value.dict (specMapPairs f m)
  | Value.arr l => Value.arr (specMapElems f l)
  | Value.list l => Value.list (specMapElems f l)
  | v => v

def specMapPairs (f : String → String) : List (String × Value) → List (String × Value)
  | [] => []
  | (k, v) :: rest => (k, specMapLeaves f v) :: specMapPairs f rest

def specMapElems (f : String → String) : List Value → List Value
  | [] => []
  | v :: rest => specMapLeaves f v :: specMapElems f rest

end

/-- Spec-side truncation rule: a string longer than 120 units is cut to its
first 120 units followed by the truncation marker. -/
def specCut (s : String) : String :=
  if 120 < s.length then String.mk (s.data.take 120) ++ "......" else s

/-- Container-addressed value: the same data as Value but with every
container carrying the identity of its backing Go allocation, so that
sharing between trees is expressible.  raw=true is the decoded
map[string]interface{} / []interface{} shape, raw=false the named Dict/List
shape.  Scalars are immutable in Go, so they carry no address. -/
inductive AValue where
  | leaf (v : Value)
  | amap (id : Nat) (raw : Bool) (m : List (String × AValue))
  | aseq (id : Nat) (raw : Bool) (l : List AValue)

mutual

/-- The recursive rebuild Clone runs on container roots (handlerVal with
cutLongStr=false, gojson.go:559-604, invoked from gojson.go:629/632; the
resulting List/Dict passes NewJson unchanged) on addressed values, with the
NewDict/NewList allocations made explicit: every rebuilt container takes a
fresh address from the counter and is of the named (raw=false) shape,
exactly as handlerMap returns a Dict and handlerSlice a List; scalars pass
through handlerVal's default branch (handlerString with cutLongStr=false is
the identity).  Clone's scalar-root NewJson path, which re-parses a string
root, is covered by the plain-value clauses of the C8 theorem. -/
def cloneA : AValue → Nat → AValue × Nat
  | AValue.leaf v, n => (AValue.leaf v, n)
  | AValue.amap _ _ m, n =>
      let p := cloneAPairs m (n + 1)
      (AValue.amap n false p.1, p.2)
  | AValue.aseq _ _ l, n =>
      let p := cloneAElems l (n + 1)
      (AValue.aseq n false p.1, p.2)

def cloneAPairs : List (String × AValue) → Nat → List (String × AValue) × Nat
  | [], n => ([], n)
  | (k, v) :: rest, n =>
      let p := cloneA v n
      let q := cloneAPairs rest p.2
      ((k, p.1) :: q.1, q.2)

def cloneAElems : List AValue → Nat → List AValue × Nat
  | [], n => ([], n)
  | v :: rest, n =>
      let p := cloneA v n
      let q := cloneAElems rest p.2
      (p.1 :: q.1, q.2)

end

mutual

/-- Addresses of all containers in an addressed value. -/
def idsA : AValue → List Nat
  | AValue.leaf _ => []
  | AValue.amap i _ m => i :: idsAPairs m
  | AValue.aseq i _ l => i :: idsAElems l

def idsAPairs : List (String × AValue) → List Nat
  | [] => []
  | (_, v) :: rest => idsA v ++ idsAPairs rest

def idsAElems : List AValue → List Nat
  | [] => []
  | v :: rest => idsA v ++ idsAElems rest

end

mutual

/-- Forget addresses and container naming: the canonical JSON tree of an
addressed value. -/
def eraseA : AValue → Value
  | AValue.leaf v => eraseV v
  | AValue.amap _ _ m => Value.dict (eraseAPairs m)
  | AValue.aseq _ _ l => Value.list (eraseAElems l)

def eraseAPairs : List (String × AValue) → List (String × Value)
  | [] => []
  | (k, v) :: rest => (k, eraseA v) :: eraseAPairs rest

def eraseAElems : List AValue → List Value
  | [] => []
  | v :: rest => eraseA v :: eraseAElems rest

end

/-- Claim-side helper: the entry stored under k when the value is a mapping
of either shape (no zero-value defaulting), used to state absence. -/
def mapEntry (v : Value) (k : String) : Option Value :=
  match v with
  | Value.vmap m => lookupA k m
  | Value.dict m => lookupA k m
  | _ => none

/-- Well-formedness of a node's parent link, as every node reachable through
the exported API satisfies it: a linked parent is a different node, and when
the parent's data is the raw slice shape the stored prevIndex is a valid
position of it (so the write-back in maintainParent cannot panic). -/
def parentOk (h : Heap) (id : Nat) : Prop :=
  match (getN h id).prev with
  | none => True
  | some pid =>
      pid ≠ id ∧
      match (getN h pid).data with
      | Value.arr pl =>
          0 ≤ (getN h id).prevIndex ∧ (getN h id).prevIndex.toNat < pl.length
      | _ => True

/-- A 200-character string for the truncation examples. -/
def longStr : String := String.mk (List.replicate 200 'a')

/-- Example heap: node 0 wraps the raw map scenario document, node 1 is the
child returned by Get for key a, wrapping the raw one-element slice. -/
def mapParentHeap : Heap :=
  ⟨fun j =>
    if j = 0 then ⟨none, "", 0, Value.vmap [("a", Value.arr [Value.intV 1])]⟩
    else if j = 1 then ⟨some 0, "a", 0, Value.arr [Value.intV 1]⟩
    else default, 2⟩

/-- Example heap: like mapParentHeap but the parent container is the named
Dict shape, as Clone and ShortNiceJson produce. -/
def dictParentHeap : Heap :=
  ⟨fun j =>
    if j = 0 then ⟨none, "", 0, Value.dict [("a", Value.arr [Value.intV 1])]⟩
    else if j = 1 then ⟨some 0, "a", 0, Value.arr [Value.intV 1]⟩
    else default, 2⟩

/-- Example heap: a root node wrapping a one-element raw slice. -/
def arrHeap : Heap :=
  ⟨fun j =>
    if j = 0 then ⟨none, "", 0, Value.arr [Value.intV 1]⟩ else default, 1⟩

/-- Example heap: a root node wrapping the mapping with key a present and
bound to JSON null. -/
def nullEntryHeap : Heap :=
  ⟨fun j =>
    if j = 0 then ⟨none, "", 0, Value.vmap [("a", Value.null)]⟩ else default, 1⟩

/-- Example heap: a root node wrapping a number scalar. -/
def scalarHeap : Heap :=
  ⟨fun j =>
    if j = 0 then ⟨none, "", 0, Value.intV 5⟩ else default, 1⟩

/-- Claim C5 counterexample: the platform-native unsigned type is converted
with int(v) unchecked, so the maximal uint value, which exceeds the maximal
signed value, silently wraps to -1 with no error; and Float64() of an int32
is an error because int32 is missing from ToFloat64's integer case list. -/
theorem gojson_c5_counterexample :
    ToInt (Value.uintV (2 ^ 64 - 1)) = Except.ok (-1) ∧
    (2 : Nat) ^ 63 - 1 < 2 ^ 64 - 1 ∧
    ToFloat64 (Value.int32V 7) = Except.error "cannot convert to float" := by
  refine ⟨?_, by norm_num, rfl⟩
  rfl

/-- Claim C5, amended: Int() converts every signed width variant and
uint8/16/32 exactly; uint64 above the maximal signed value is an overflow
error and at most that value converts exactly; but the platform-native uint
wraps around silently instead of erring (only uint64 is overflow-checked);
Float64() converts the listed integer widths through Int() (so uint64 10
gives 10.0 and an overflowing uint64 propagates the overflow error), yet
int32 is absent from its case list and is a coercion failure. -/
theorem gojson_c5 :
    (∀ n : Int,
      ToInt (Value.intV n) = Except.ok n ∧ ToInt (Value.int8V n) = Except.ok n ∧
      ToInt (Value.int16V n) = Except.ok n ∧ ToInt (Value.int32V n) = Except.ok n ∧
      ToInt (Value.int64V n) = Except.ok n) ∧
    (∀ v : Nat,
      ToInt (Value.uint8V v) = Except.ok (v : Int) ∧
      ToInt (Value.uint16V v) = Except.ok (v : Int) ∧
      ToInt (Value.uint32V v) = Except.ok (v : Int)) ∧
    (∀ v : Nat, v ≤ 2 ^ 63 - 1 → ToInt (Value.uint64V v) = Except.ok (v : Int)) ∧
    (∀ v : Nat, 2 ^ 63 - 1 < v →
      ToInt (Value.uint64V v) = Except.error "ToInt, error, overflowd") ∧
    (∀ v : Nat, v < 2 ^ 63 → ToInt (Value.uintV v) = Except.ok (v : Int)) ∧
    (∀ v : Nat, 2 ^ 63 ≤ v → v < 2 ^ 64 →
      ToInt (Value.uintV v) = Except.ok ((v : Int) - 2 ^ 64)) ∧
    (∀ n : Int, ToFloat64 (Value.int32V n) = Except.error "cannot convert to float") ∧
    ToFloat64 (Value.uint64V 10) = Except.ok 10 ∧
    (∀ v : Nat, 2 ^ 63 - 1 < v →
      ToFloat64 (Value.uint64V v) = Except.error "ToInt, error, overflowd") := by
  refine ⟨fun n => ⟨rfl, rfl, rfl, rfl, rfl⟩, fun v => ⟨rfl, rfl, rfl⟩, ?_, ?_, ?_, ?_,
    fun n => rfl, rfl, ?_⟩
  · intro v hv
    simp only [ToInt]
    rw [if_neg (by omega)]
  · intro v hv
    simp only [ToInt]
    rw [if_pos (by omega)]
  · intro v hv
    simp only [ToInt, wrapInt64]
    rw [Nat.mod_eq_of_lt (by omega), if_pos hv]
  · intro v hv1 hv2
    simp only [ToInt, wrapInt64]
    rw [Nat.mod_eq_of_lt hv2, if_neg (by omega)]
  · intro v hv
    simp only [ToFloat64, ToInt]
    rw [if_pos (by omega)]

/-- Claim C5 witness: the theorem applied at concrete inputs. -/
theorem gojson_c5_witness :
    ToInt (Value.uint64V 7) = Except.ok 7 ∧
    ToInt (Value.uint64V (2 ^ 63)) = Except.error "ToInt, error, overflowd" ∧
    ToInt (Value.uintV 9) = Except.ok 9 ∧
    ToInt (Value.uintV (2 ^ 64 - 2)) = Except.ok (((2 ^ 64 - 2 : Nat) : Int) - 2 ^ 64) ∧
    ToFloat64 (Value.uint64V (2 ^ 63)) = Except.error "ToInt, error, overflowd" :=
  ⟨gojson_c5.2.2.1 7 (by norm_num),
   gojson_c5.2.2.2.1 (2 ^ 63) (by norm_num),
   gojson_c5.2.2.2.2.1 9 (by norm_num),
   gojson_c5.2.2.2.2.2.1 (2 ^ 64 - 2) (by norm_num) (by norm_num),
   gojson_c5.2.2.2.2.2.2.2.2 (2 ^ 63) (by norm_num)⟩

/-- Claim C3 counterexample: a Dict value is a mapping by the code's own
IsMap predicate, yet Keys panics on it, refuting that Keys aborts exactly
when the Value is non-nil and not a mapping. -/
theorem gojson_c3_counterexample :
    (Keys (Value.dict [("a", Value.intV 1)])).toOption = none ∧
    IsMapV (Value.dict [("a", Value.intV 1)]) = true :=
  ⟨rfl, rfl⟩

/-- Claim C3, amended: Keys returns all keys when the wrapped Value is the
raw decoded map type; a nil Value yields the empty sequence; and it aborts
exactly when the Value is non-nil and not of the raw map type, which
includes the Dict mapping shape produced by Clone and ShortNiceJson. -/
theorem gojson_c3 :
    (∀ m, Keys (Value.vmap m) = Except.ok (m.map Prod.fst)) ∧
    Keys Value.null = Except.ok [] ∧
    (∀ v : Value, (Keys v).toOption = none ↔
      v ≠ Value.null ∧ ∀ m, v ≠ Value.vmap m) := by
  refine ⟨fun m => rfl, rfl, fun v => ?_⟩
  cases v <;> simp [Keys, Except.toOption]

theorem getN_get (h : Heap) (id : Nat) (k : String) :
    getN (Get h id k).1 (Get h id k).2 =
      match getMap k (getN h id).data with
      | some m => ⟨some id, k, 0, m⟩
      | none => ⟨some id, k, 0, Value.null⟩ := by
  simp only [Get, getN, hset]
  simp

/-- Claim C4 counterexample: the wrapped Value is a mapping with key a
present (bound to JSON null), yet Get("a").IsNil() is true, because the Go
map read cannot distinguish a null entry from an absent one. -/
theorem gojson_c4_counterexample :
    IsNil (getN (Get nullEntryHeap 0 "a").1 (Get nullEntryHeap 0 "a").2) = true ∧
    IsMapV (getN nullEntryHeap 0).data = true ∧
    mapEntry (getN nullEntryHeap 0).data "a" = some Value.null := by
  refine ⟨?_, rfl, rfl⟩
  rw [getN_get]
  rfl

/-- Claim C4, amended: Get(k).IsNil() is true iff the wrapped Value is not
a mapping, or k is absent from the wrapped mapping, or k is present but
bound to JSON null (Go map indexing yields the nil zero value for both of
the last two). -/
theorem gojson_c4 : ∀ (h : Heap) (id : Nat) (k : String),
    IsNil (getN (Get h id k).1 (Get h id k).2) = true ↔
      IsMapV (getN h id).data = false ∨
      mapEntry (getN h id).data k = none ∨
      mapEntry (getN h id).data k = some Value.null := by
  intro h id k
  rw [getN_get]
  cases hd : (getN h id).data <;>
    simp only [getMap, IsMapV, mapEntry, IsNil] <;>
    try simp
  case vmap m =>
    cases he : lookupA k m
    case none => simp [IsNil]
    case some v => cases v <;> simp [IsNil]
  case dict m =>
    cases he : lookupA k m
    case none => simp [IsNil]
    case some v => cases v <;> simp [IsNil]

/-- Claim C2 counterexample: Index(5) on a node wrapping a one-element
sequence runs the unchecked element access of getSlice and panics instead
of returning a nil-Value child. -/
theorem gojson_c2_counterexample :
    Index arrHeap 0 5 = Except.error "runtime error: index out of range" := rfl

/-- Claim C2, amended: Index(i) on a non-sequence Value returns a nil-Value
child with parent linkage and no fault; on a sequence it returns the child
wrapping element i when 0 <= i < length, and panics (runtime index out of
range) for every out-of-range i, rather than returning a nil-Value child. -/
theorem gojson_c2 :
    (∀ (h : Heap) (id : Nat) (i : Int), IsSliceV (getN h id).data = false →
      (Index h id i).map (fun p => getN p.1 p.2) =
        Except.ok ⟨some id, "", i, Value.null⟩) ∧
    (∀ (h : Heap) (id : Nat) (i : Int) (l : List Value),
      (getN h id).data = Value.arr l → 0 ≤ i → i.toNat < l.length →
      (Index h id i).map (fun p => getN p.1 p.2) =
        Except.ok ⟨some id, "", i, l.getD i.toNat Value.null⟩) ∧
    (∀ (h : Heap) (id : Nat) (i : Int) (l : List Value),
      (getN h id).data = Value.arr l → ¬(0 ≤ i ∧ i.toNat < l.length) →
      Index h id i = Except.error "runtime error: index out of range") ∧
    (∀ (h : Heap) (id : Nat) (i : Int) (l : List Value),
      (getN h id).data = Value.list l → 0 ≤ i → i.toNat < l.length →
      (Index h id i).map (fun p => getN p.1 p.2) =
        Except.ok ⟨some id, "", i, l.getD i.toNat Value.null⟩) ∧
    (∀ (h : Heap) (id : Nat) (i : Int) (l : List Value),
      (getN h id).data = Value.list l → ¬(0 ≤ i ∧ i.toNat < l.length) →
      Index h id i = Except.error "runtime error: index out of range") := by
  refine ⟨?_, ?_, ?_, ?_, ?_⟩
  · intro h id i hns
    cases hd : (getN h id).data <;>
      simp_all [Index, getSlice, IsSliceV, Except.map, getN, hset]
  · intro h id i l hd h0 hl
    simp only [getN] at hd
    simp [Index, getSlice, hd, h0, hl, Except.map, getN, hset]
  · intro h id i l hd hrange
    simp only [getN] at hd
    simp [Index, getSlice, getN, hd, hrange]
  · intro h id i l hd h0 hl
    simp only [getN] at hd
    simp [Index, getSlice, hd, h0, hl, Except.map, getN, hset]
  · intro h id i l hd hrange
    simp only [getN] at hd
    simp [Index, getSlice, getN, hd, hrange]

/-- Claim C2 witness: the amended theorem applied at concrete inputs: a
scalar node yields a nil child for index 3, a one-element sequence yields
the element for index 0 and panics for index 5. -/
theorem gojson_c2_witness :
    (Index scalarHeap 0 3).map (fun p => getN p.1 p.2) =
      Except.ok ⟨some 0, "", 3, Value.null⟩ ∧
    (Index arrHeap 0 0).map (fun p => getN p.1 p.2) =
      Except.ok ⟨some 0, "", 0, [Value.intV 1].getD (0 : Int).toNat Value.null⟩ ∧
    Index arrHeap 0 (-1) = Except.error "runtime error: index out of range" :=
  ⟨gojson_c2.1 scalarHeap 0 3 rfl,
   gojson_c2.2.1 arrHeap 0 0 [Value.intV 1] rfl (by norm_num) (by norm_num),
   gojson_c2.2.2.1 arrHeap 0 (-1) [Value.intV 1] rfl (by norm_num)⟩

theorem splitDot_ne_nil : ∀ cs : List Char, splitDot cs ≠ []
  | [] => by simp [splitDot]
  | c :: rest => by
      by_cases hc : c = '.'
      · simp [splitDot, hc]
      · simp only [splitDot, hc, if_false]
        cases hsp : splitDot rest <;> simp

theorem splitDot_headD (cs : List Char) :
    (splitDot cs).headD [] = cs.takeWhile (fun c => c ≠ '.') := by
  induction cs with
  | nil => rfl
  | cons c rest ih =>
      by_cases hc : c = '.'
      · simp [splitDot, hc, List.takeWhile_cons]
      · simp only [splitDot, hc, if_false, List.takeWhile_cons]
        cases hsp : splitDot rest with
        | nil => exact absurd hsp (splitDot_ne_nil rest)
        | cons hhd t =>
            rw [hsp] at ih
            simp only [List.headD_cons] at ih
            simpa [hc] using ih

theorem takeWhile_no_dot (cs : List Char) (hc : cs.contains '.' = false) :
    cs.takeWhile (fun c => c ≠ '.') = cs := by
  induction cs with
  | nil => rfl
  | cons c rest ih =>
      simp only [List.contains_cons, Bool.or_eq_false_iff, beq_eq_false_iff_ne] at hc
      rw [List.takeWhile_cons_of_pos (by simp [Ne.symm hc.1]), ih hc.2]

theorem strMk_eq_empty_iff (cs : List Char) : String.mk cs = "" ↔ cs = [] := by
  constructor
  · intro h
    have := congrArg String.data h
    simpa using this
  · intro h
    subst h
    rfl

theorem str_eq_empty_iff (s : String) : s = "" ↔ s.data = [] := by
  cases s with
  | mk cs => simpa using strMk_eq_empty_iff cs

/-- Claim C6, confirmed: Int() on a wrapped string truncates the string at
the first dot (Contains plus Split is exactly takeWhile below the dot) and
parses that prefix as an integer, an empty prefix giving 0 with no error;
so Int of 42.9 is 42 by truncation and Int of the empty string is 0; and a
node with nil wrapped Value errors immediately. -/
theorem gojson_c6 :
    (∀ s : String, ToInt (Value.str s) =
      (if s.data.takeWhile (fun c => c ≠ '.') = [] then Except.ok 0
       else
         match goAtoi (String.mk (s.data.takeWhile (fun c => c ≠ '.'))) with
         | some n => Except.ok n
         | none => Except.error "cannot convert to int")) ∧
    ToInt (Value.str "42.9") = Except.ok 42 ∧
    ToInt (Value.str "") = Except.ok 0 ∧
    (∀ j : GoJson, j.data = Value.null → nodeInt j = Except.error "is not int") := by
  refine ⟨?_, by rfl, by rfl, ?_⟩
  · intro s
    by_cases hcd : containsDot s = true
    · simp only [ToInt, hcd, if_true, splitDot_headD]
      simp only [strMk_eq_empty_iff]
    · have hnd : containsDot s = false := by
        cases hcb : containsDot s
        · rfl
        · exact absurd hcb hcd
      have hnd2 : s.data.contains '.' = false := by
        simpa [containsDot] using hnd
      simp only [ToInt, hnd, Bool.false_eq_true, if_false]
      rw [takeWhile_no_dot s.data hnd2]
      simp only [str_eq_empty_iff]
  · intro j hj
    simp [nodeInt, hj]

/-- Claim C6 witness: the nil-node clause of the theorem applied to a
concrete node with nil wrapped Value. -/
theorem gojson_c6_witness :
    nodeInt ⟨none, "", 0, Value.null⟩ = Except.error "is not int" :=
  gojson_c6.2.2.2 ⟨none, "", 0, Value.null⟩ rfl

mutual

theorem eraseV_handlerVal (cut : Bool) : (v : Value) →
    eraseV (handlerVal v cut) =
      specMapLeaves (fun s => handlerString s cut) (eraseV v)
  | Value.null => rfl
  | Value.boolV _ => rfl
  | Value.number _ => rfl
  | Value.str _ => rfl
  | Value.intV _ => rfl
  | Value.int8V _ => rfl
  | Value.int16V _ => rfl
  | Value.int32V _ => rfl
  | Value.int64V _ => rfl
  | Value.uintV _ => rfl
  | Value.uint8V _ => rfl
  | Value.uint16V _ => rfl
  | Value.uint32V _ => rfl
  | Value.uint64V _ => rfl
  | Value.float32V _ => rfl
  | Value.float64V _ => rfl
  | Value.node _ => rfl
  | Value.vmap m => congrArg Value.dict (erasePairs_handlerPairs cut m)
  | Value.dict m => congrArg Value.dict (erasePairs_handlerPairs cut m)
  | Value.arr l => congrArg Value.list (eraseElems_handlerElems cut l)
  | Value.list l => congrArg Value.list (eraseElems_handlerElems cut l)

theorem erasePairs_handlerPairs (cut : Bool) : (m : List (String × Value)) →
    erasePairs (handlerPairs m cut) =
      specMapPairs (fun s => handlerString s cut) (erasePairs m)
  | [] => rfl
  | (k, v) :: rest => by
      show (k, eraseV (handlerVal v cut)) :: erasePairs (handlerPairs rest cut) =
        (k, specMapLeaves (fun s => handlerString s cut) (eraseV v)) ::
          specMapPairs (fun s => handlerString s cut) (erasePairs rest)
      rw [eraseV_handlerVal cut v, erasePairs_handlerPairs cut rest]

theorem eraseElems_handlerElems (cut : Bool) : (l : List Value) →
    eraseElems (handlerElems l cut) =
      specMapElems (fun s => handlerString s cut) (eraseElems l)
  | [] => rfl
  | v :: rest => by
      show eraseV (handlerVal v cut) :: eraseElems (handlerElems rest cut) =
        specMapLeaves (fun s => handlerString s cut) (eraseV v) ::
          specMapElems (fun s => handlerString s cut) (eraseElems rest)
      rw [eraseV_handlerVal cut v, eraseElems_handlerElems cut rest]

end

theorem handlerString_true (s : String) : handlerString s true = specCut s := by
  simp [handlerString, specCut]

/-- Claim C9 counterexample: at a node wrapping a bare 200-character string
the handlers never run; ShortNiceJson falls through to NewJson(j.data),
which re-parses the string as JSON text, fails (200 bare letters are not a
JSON value), and swallows the failure into a nil-data node - not the
120-units-plus-marker leaf the claim demands (nor the original string). -/
theorem gojson_c9_counterexample :
    ShortNiceJsonV (Value.str longStr) = Value.null ∧
    120 < longStr.length ∧
    Value.null ≠ Value.str (handlerString longStr true) ∧
    Value.null ≠ Value.str longStr := by
  refine ⟨rfl, by decide, fun hcontra => Value.noConfusion hcontra,
    fun hcontra => Value.noConfusion hcontra⟩

/-- Claim C9, amended: for a container-rooted node ShortNiceJson rebuilds
the tree applying to every string leaf the rule that a string longer than
120 units is cut to its first 120 units plus the marker and every other
leaf is unchanged (shown up to the canonical container shape, since the
rebuild also renames raw containers to Dict/List); but a non-container root
is not truncated: it is routed through NewJson, which re-parses a string
root as JSON text (nil data on parse failure, as for the bare 200-character
string) and returns every other scalar root unchanged. -/
theorem gojson_c9 :
    (∀ v : Value, eraseV (ShortNiceJsonV v) =
      (if IsSliceV v || IsMapV v then specMapLeaves specCut (eraseV v)
       else eraseV (NewJsonV v))) ∧
    (∀ s : String, ShortNiceJsonV (Value.str s) = NewJsonV (Value.str s)) ∧
    (∀ v : Value, IsSliceV v = false → IsMapV v = false →
      (∀ s, v ≠ Value.str s) → ShortNiceJsonV v = v) ∧
    ShortNiceJsonV (Value.vmap [("long", Value.str longStr), ("short", Value.str "hi")]) =
      Value.dict [("long", Value.str (String.mk (List.replicate 120 'a') ++ "......")),
        ("short", Value.str "hi")] ∧
    (String.mk (List.replicate 120 'a') ++ "......").length = 126 := by
  have hfun : (fun s => handlerString s true) = specCut := funext handlerString_true
  refine ⟨?_, fun _ => rfl, ?_, ?_, by decide⟩
  · intro v
    cases v <;>
      simp [ShortNiceJsonV, IsSliceV, IsMapV, handlerSlice, handlerMap, eraseV,
        specMapLeaves, eraseElems_handlerElems, erasePairs_handlerPairs, hfun,
        NewJsonV]
  · intro v hs hm hstr
    cases v
    case str s => exact absurd rfl (hstr s)
    all_goals simp_all [ShortNiceJsonV, IsSliceV, IsMapV, NewJsonV]
  · rfl

/-- Claim C9 witness: the hypothesis-bearing scalar clause of the theorem
applied to a boolean-rooted node. -/
theorem gojson_c9_witness :
    ShortNiceJsonV (Value.boolV true) = Value.boolV true :=
  gojson_c9.2.2.1 (Value.boolV true) rfl rfl (fun _ h => Value.noConfusion h)

mutual

theorem specMapLeaves_id : (v : Value) → specMapLeaves (fun s => s) v = v
  | Value.null => rfl
  | Value.boolV _ => rfl
  | Value.number _ => rfl
  | Value.str _ => rfl
  | Value.intV _ => rfl
  | Value.int8V _ => rfl
  | Value.int16V _ => rfl
  | Value.int32V _ => rfl
  | Value.int64V _ => rfl
  | Value.uintV _ => rfl
  | Value.uint8V _ => rfl
  | Value.uint16V _ => rfl
  | Value.uint32V _ => rfl
  | Value.uint64V _ => rfl
  | Value.float32V _ => rfl
  | Value.float64V _ => rfl
  | Value.node _ => rfl
  | Value.vmap m => congrArg Value.vmap (specMapPairs_id m)
  | Value.dict m => congrArg Value.dict (specMapPairs_id m)
  | Value.arr l => congrArg Value.arr (specMapElems_id l)
  | Value.list l => congrArg Value.list (specMapElems_id l)

theorem specMapPairs_id : (m : List (String × Value)) →
    specMapPairs (fun s => s) m = m
  | [] => rfl
  | (k, v) :: rest => by
      show (k, specMapLeaves (fun s => s) v) :: specMapPairs (fun s => s) rest =
        (k, v) :: rest
      rw [specMapLeaves_id v, specMapPairs_id rest]

theorem specMapElems_id : (l : List Value) → specMapElems (fun s => s) l = l
  | [] => rfl
  | v :: rest => by
      show specMapLeaves (fun s => s) v :: specMapElems (fun s => s) rest =
        v :: rest
      rw [specMapLeaves_id v, specMapElems_id rest]

end

mutual

theorem cloneA_counter_le : (a : AValue) → (n : Nat) → n ≤ (cloneA a n).2
  | AValue.leaf _, n => le_refl n
  | AValue.amap _ _ m, n =>
      le_trans (Nat.le_succ n) (cloneAPairs_counter_le m (n + 1))
  | AValue.aseq _ _ l, n =>
      le_trans (Nat.le_succ n) (cloneAElems_counter_le l (n + 1))

theorem cloneAPairs_counter_le : (m : List (String × AValue)) → (n : Nat) →
    n ≤ (cloneAPairs m n).2
  | [], n => le_refl n
  | (_, v) :: rest, n =>
      le_trans (cloneA_counter_le v n)
        (cloneAPairs_counter_le rest (cloneA v n).2)

theorem cloneAElems_counter_le : (l : List AValue) → (n : Nat) →
    n ≤ (cloneAElems l n).2
  | [], n => le_refl n
  | v :: rest, n =>
      le_trans (cloneA_counter_le v n)
        (cloneAElems_counter_le rest (cloneA v n).2)

end

mutual

theorem cloneA_fresh : (a : AValue) → (n : Nat) →
    ∀ i ∈ idsA (cloneA a n).1, n ≤ i
  | AValue.leaf _, n => by simp [cloneA, idsA]
  | AValue.amap _ _ m, n => by
      intro i hi
      simp only [cloneA, idsA, List.mem_cons] at hi
      rcases hi with rfl | hi
      · exact le_refl i
      · exact le_trans (Nat.le_succ n) (cloneAPairs_fresh m (n + 1) i hi)
  | AValue.aseq _ _ l, n => by
      intro i hi
      simp only [cloneA, idsA, List.mem_cons] at hi
      rcases hi with rfl | hi
      · exact le_refl i
      · exact le_trans (Nat.le_succ n) (cloneAElems_fresh l (n + 1) i hi)

theorem cloneAPairs_fresh : (m : List (String × AValue)) → (n : Nat) →
    ∀ i ∈ idsAPairs (cloneAPairs m n).1, n ≤ i
  | [], n => by simp [cloneAPairs, idsAPairs]
  | (k, v) :: rest, n => by
      intro i hi
      simp only [cloneAPairs, idsAPairs, List.mem_append] at hi
      rcases hi with hi | hi
      · exact cloneA_fresh v n i hi
      · exact le_trans (cloneA_counter_le v n)
          (cloneAPairs_fresh rest (cloneA v n).2 i hi)

theorem cloneAElems_fresh : (l : List AValue) → (n : Nat) →
    ∀ i ∈ idsAElems (cloneAElems l n).1, n ≤ i
  | [], n => by simp [cloneAElems, idsAElems]
  | v :: rest, n => by
      intro i hi
      simp only [cloneAElems, idsAElems, List.mem_append] at hi
      rcases hi with hi | hi
      · exact cloneA_fresh v n i hi
      · exact le_trans (cloneA_counter_le v n)
          (cloneAElems_fresh rest (cloneA v n).2 i hi)

end

mutual

theorem eraseA_cloneA : (a : AValue) → (n : Nat) →
    eraseA (cloneA a n).1 = eraseA a
  | AValue.leaf _, _ => rfl
  | AValue.amap _ _ m, n =>
      congrArg Value.dict (eraseAPairs_cloneAPairs m (n + 1))
  | AValue.aseq _ _ l, n =>
      congrArg Value.list (eraseAElems_cloneAElems l (n + 1))

theorem eraseAPairs_cloneAPairs : (m : List (String × AValue)) → (n : Nat) →
    eraseAPairs (cloneAPairs m n).1 = eraseAPairs m
  | [], _ => rfl
  | (k, v) :: rest, n => by
      show (k, eraseA (cloneA v n).1) ::
          eraseAPairs (cloneAPairs rest (cloneA v n).2).1 =
        (k, eraseA v) :: eraseAPairs rest
      rw [eraseA_cloneA v n, eraseAPairs_cloneAPairs rest (cloneA v n).2]

theorem eraseAElems_cloneAElems : (l : List AValue) → (n : Nat) →
    eraseAElems (cloneAElems l n).1 = eraseAElems l
  | [], _ => rfl
  | v :: rest, n => by
      show eraseA (cloneA v n).1 ::
          eraseAElems (cloneAElems rest (cloneA v n).2).1 =
        eraseA v :: eraseAElems rest
      rw [eraseA_cloneA v n, eraseAElems_cloneAElems rest (cloneA v n).2]

end

/-- Claim C8 counterexample: Clone of a string-rooted node is not a
structurally equal tree: the final NewJson(j.data) re-parses the string as
JSON text, so a node wrapping the string hello clones to a nil-data node
(parse failure swallowed) and a node wrapping the string 123 clones to a
json.Number - neither equal to the original Value. -/
theorem gojson_c8_counterexample :
    CloneV (Value.str "hello") = Value.null ∧
    Value.null ≠ Value.str "hello" ∧
    CloneV (Value.str "123") = Value.number "123" ∧
    Value.number "123" ≠ Value.str "123" := by
  refine ⟨rfl, fun hcontra => Value.noConfusion hcontra, rfl,
    fun hcontra => Value.noConfusion hcontra⟩

/-- Claim C8, amended: for every node whose wrapped Value is a container or
a non-string scalar, Clone produces a tree structurally equal to the
original as a JSON tree (equal up to the canonical container shape, since
the rebuild renames raw containers to Dict/List), and on the
container-addressed model every container of the clone carries a fresh
allocation, none of which occurs among the containers of the input - hence
mutating a nested container of the clone cannot touch any container of the
original; but a string-rooted node is not copied: Clone's final NewJson
re-parses the string as JSON text, yielding the decoded value, or a
nil-data node on parse failure. -/
theorem gojson_c8 :
    (∀ v : Value, (∀ s, v ≠ Value.str s) → eraseV (CloneV v) = eraseV v) ∧
    (∀ s : String, CloneV (Value.str s) = NewJsonV (Value.str s)) ∧
    (∀ (a : AValue) (n : Nat), (∀ i ∈ idsA a, i < n) →
      eraseA (cloneA a n).1 = eraseA a ∧
      ∀ i ∈ idsA (cloneA a n).1, i ∉ idsA a) := by
  refine ⟨?_, fun _ => rfl, ?_⟩
  · have hfun0 : (fun s => handlerString s false) = (fun s : String => s) :=
      funext fun s => by simp [handlerString]
    intro v hstr
    cases v <;>
      first
      | exact absurd rfl (hstr _)
      | simp [CloneV, IsSliceV, IsMapV, handlerSlice, handlerMap, eraseV,
          eraseElems_handlerElems, erasePairs_handlerPairs, hfun0,
          specMapPairs_id, specMapElems_id, NewJsonV]
  · intro a n hlt
    refine ⟨eraseA_cloneA a n, fun i hi hmem => ?_⟩
    exact absurd (hlt i hmem) (not_lt.2 (cloneA_fresh a n i hi))

/-- Claim C8 witness: the theorem applied to concrete inputs: structural
equality of the clone of a one-entry raw map, and on the addressed model
(address 0, counter 1) the clone's single container address 1 is not an
address of the input. -/
theorem gojson_c8_witness :
    eraseV (CloneV (Value.vmap [("x", Value.intV 1)])) =
      eraseV (Value.vmap [("x", Value.intV 1)]) ∧
    eraseA (cloneA (AValue.amap 0 true [("x", AValue.leaf (Value.intV 1))]) 1).1 =
      eraseA (AValue.amap 0 true [("x", AValue.leaf (Value.intV 1))]) ∧
    (1 : Nat) ∉ idsA (AValue.amap 0 true [("x", AValue.leaf (Value.intV 1))]) :=
  ⟨gojson_c8.1 (Value.vmap [("x", Value.intV 1)]) (fun s h => Value.noConfusion h),
   (gojson_c8.2.2 (AValue.amap 0 true [("x", AValue.leaf (Value.intV 1))]) 1
      (by simp [idsA, idsAPairs])).1,
   (gojson_c8.2.2 (AValue.amap 0 true [("x", AValue.leaf (Value.intV 1))]) 1
      (by simp [idsA, idsAPairs])).2 1
      (by simp [cloneA, cloneAPairs, idsA, idsAPairs])⟩

theorem getN_setN_same (h : Heap) (i : Nat) (a : GoJson) :
    getN (setN h i a) i = a := by
  simp [getN, setN, hset]

theorem getN_setN_other (h : Heap) (i j : Nat) (a : GoJson) (hij : j ≠ i) :
    getN (setN h i a) j = getN h j := by
  simp [getN, setN, hset, hij]

theorem lookupA_setAssoc (k : String) (v : Value) :
    ∀ m : List (String × Value), lookupA k (setAssoc k v m) = some v
  | [] => by simp [setAssoc, lookupA]
  | (k2, v2) :: rest => by
      by_cases hk : k2 = k
      · simp [setAssoc, lookupA, hk]
      · simp [setAssoc, lookupA, hk, lookupA_setAssoc k v rest]

theorem maintainParent_none (h : Heap) (id : Nat)
    (hp : (getN h id).prev = none) : maintainParent h id = Except.ok h := by
  simp [maintainParent, hp]

theorem maintainParent_vmap (h : Heap) (id pid : Nat)
    (m : List (String × Value)) (hp : (getN h id).prev = some pid)
    (hd : (getN h pid).data = Value.vmap m) :
    maintainParent h id = Except.ok (setN h pid
      { getN h pid with
          data := Value.vmap (setAssoc (getN h id).prevKey ((getN h id).data) m) }) := by
  simp [maintainParent, hp, hd, Set, setMap, unwrapIn]

theorem maintainParent_arr (h : Heap) (id pid : Nat) (pl : List Value)
    (hp : (getN h id).prev = some pid)
    (hd : (getN h pid).data = Value.arr pl)
    (h0 : 0 ≤ (getN h id).prevIndex)
    (hl : (getN h id).prevIndex.toNat < pl.length) :
    maintainParent h id = Except.ok (setN h pid
      { getN h pid with
          data := Value.arr (pl.set (getN h id).prevIndex.toNat ((getN h id).data)) }) := by
  simp [maintainParent, hp, hd, Set, setSlice, unwrapIn, h0, hl]

theorem maintainParent_dict (h : Heap) (id pid : Nat)
    (d : List (String × Value)) (hp : (getN h id).prev = some pid)
    (hd : (getN h pid).data = Value.dict d) :
    maintainParent h id = Except.ok h := by
  simp [maintainParent, hp, hd]

theorem maintainParent_list (h : Heap) (id pid : Nat) (pl : List Value)
    (hp : (getN h id).prev = some pid)
    (hd : (getN h pid).data = Value.list pl) :
    maintainParent h id = Except.ok h := by
  simp [maintainParent, hp, hd]

theorem parentOk_update_data (h : Heap) (id : Nat) (d : Value)
    (hok : parentOk h id) :
    parentOk (setN h id { getN h id with data := d }) id := by
  unfold parentOk at *
  rw [getN_setN_same]
  cases hp : (getN h id).prev with
  | none => trivial
  | some pid =>
      rw [hp] at hok
      obtain ⟨hpid, hok2⟩ := hok
      refine ⟨hpid, ?_⟩
      rw [getN_setN_other h id pid _ hpid]
      exact hok2

theorem maintainParent_parentOk (h : Heap) (id : Nat) (hok : parentOk h id) :
    ∃ h2, maintainParent h id = Except.ok h2 ∧ getN h2 id = getN h id := by
  unfold parentOk at hok
  cases hp : (getN h id).prev with
  | none => exact ⟨h, maintainParent_none h id hp, rfl⟩
  | some pid =>
      rw [hp] at hok
      obtain ⟨hpid, hok2⟩ := hok
      cases hd : (getN h pid).data
      case vmap m =>
          refine ⟨_, maintainParent_vmap h id pid m hp hd, ?_⟩
          exact getN_setN_other h pid id _ (Ne.symm hpid)
      case arr pl =>
          rw [hd] at hok2
          refine ⟨_, maintainParent_arr h id pid pl hp hd hok2.1 hok2.2, ?_⟩
          exact getN_setN_other h pid id _ (Ne.symm hpid)
      all_goals exact ⟨h, by simp [maintainParent, hp, hd], rfl⟩

theorem Append_arr (h : Heap) (id : Nat) (l : List Value) (x : Value)
    (hd : (getN h id).data = Value.arr l) :
    Append h id x = maintainParent
      (setN h id { getN h id with
        data := Value.arr (l ++ [unwrapIn h (unwrapIn h x)]) }) id := by
  simp [Append, appendSlice, hd]

theorem Append_list (h : Heap) (id : Nat) (l : List Value) (x : Value)
    (hd : (getN h id).data = Value.list l) :
    Append h id x = maintainParent
      (setN h id { getN h id with
        data := Value.list (l ++ [unwrapIn h (unwrapIn h x)]) }) id := by
  simp [Append, appendSlice, hd]

theorem Insert_arr (h : Heap) (id : Nat) (i : Int) (l : List Value) (x : Value)
    (hd : (getN h id).data = Value.arr l) (h0 : 0 ≤ i) (hl : i.toNat ≤ l.length) :
    Insert h id i x = maintainParent
      (setN h id { getN h id with
        data := Value.arr (l.take i.toNat ++ unwrapIn h x :: l.drop i.toNat) }) id := by
  simp [Insert, insertSlice, hd, h0, hl]

/-- Claim C7, confirmed: Append on a sequence-shaped node (of either slice
shape) of length n yields a wrapped sequence of length n+1 whose last
element is the argument unwrapped (equal to the argument itself whenever
the argument is not a stored node pointer), and Append on a non-sequence
node leaves the heap, hence the wrapped Value, unchanged and returns the
receiver. -/
theorem gojson_c7 :
    (∀ (h : Heap) (id : Nat) (l : List Value) (x : Value),
      (getN h id).data = Value.arr l → parentOk h id →
      (Append h id x).map (fun h2 => ((getN h2 id).data, LenV (getN h2 id).data)) =
        Except.ok (Value.arr (l ++ [unwrapIn h (unwrapIn h x)]), l.length + 1)) ∧
    (∀ (h : Heap) (id : Nat) (l : List Value) (x : Value),
      (getN h id).data = Value.list l → parentOk h id →
      (Append h id x).map (fun h2 => ((getN h2 id).data, LenV (getN h2 id).data)) =
        Except.ok (Value.list (l ++ [unwrapIn h (unwrapIn h x)]), l.length + 1)) ∧
    (∀ (h : Heap) (x : Value), (∀ i, x ≠ Value.node i) → unwrapIn h x = x) ∧
    (∀ (h : Heap) (id : Nat) (x : Value),
      IsSliceV (getN h id).data = false → Append h id x = Except.ok h) := by
  refine ⟨?_, ?_, ?_, ?_⟩
  · intro h id l x hd hok
    rw [Append_arr h id l x hd]
    obtain ⟨h2, hmp, hpres⟩ := maintainParent_parentOk _ id
      (parentOk_update_data h id (Value.arr (l ++ [unwrapIn h (unwrapIn h x)])) hok)
    rw [hmp]
    simp only [Except.map]
    rw [hpres, getN_setN_same]
    simp [LenV]
  · intro h id l x hd hok
    rw [Append_list h id l x hd]
    obtain ⟨h2, hmp, hpres⟩ := maintainParent_parentOk _ id
      (parentOk_update_data h id (Value.list (l ++ [unwrapIn h (unwrapIn h x)])) hok)
    rw [hmp]
    simp only [Except.map]
    rw [hpres, getN_setN_same]
    simp [LenV]
  · intro h x hx
    cases x <;> first | rfl | exact absurd rfl (hx _)
  · intro h id x hns
    cases hd : (getN h id).data <;> simp_all [Append, appendSlice, IsSliceV]

/-- Claim C7 witness: the theorem applied at concrete inputs: appending 2
to the child sequence of mapParentHeap, and appending to a scalar node. -/
theorem gojson_c7_witness :
    (Append mapParentHeap 1 (Value.intV 2)).map
        (fun h2 => ((getN h2 1).data, LenV (getN h2 1).data)) =
      Except.ok (Value.arr [Value.intV 1, Value.intV 2], 2) ∧
    Append scalarHeap 0 (Value.intV 9) = Except.ok scalarHeap := by
  constructor
  · have hok : parentOk mapParentHeap 1 := by
      simp [parentOk, mapParentHeap, getN]
    simpa [unwrapIn] using
      gojson_c7.1 mapParentHeap 1 [Value.intV 1] (Value.intV 2) rfl hok
  · exact gojson_c7.2.2.2 scalarHeap 0 (Value.intV 9) rfl

/-- Claim C1 counterexample: in the concrete two-node document with the raw
map root and the child sequence reached under key a, a successful Append
leaves the parent's container element at a equal to the raw updated slice,
not the Node wrapper (which would be the stored pointer, node 1). -/
theorem gojson_c1_counterexample :
    (Append mapParentHeap 1 (Value.intV 2)).map
        (fun h2 => mapEntry (getN h2 0).data "a") =
      Except.ok (some (Value.arr [Value.intV 1, Value.intV 2])) ∧
    some (Value.arr [Value.intV 1, Value.intV 2]) ≠ some (Value.node 1) := by
  refine ⟨rfl, ?_⟩
  intro hcontra
  injection hcontra with h2
  exact Value.noConfusion h2

/-- Claim C1, amended: a successful Append on a sequence-shaped node with a
parent whose Value is the raw map (resp. raw slice) shape walks to the
parent and calls parent.Set with the stored parentKey (resp. parentIndex);
Set unwraps the passed Node, so afterwards the parent's container element
at that key or index holds the child's raw updated sequence, and reads
through the parent yield that raw container, not the Node wrapper. -/
theorem gojson_c1 :
    (∀ (h : Heap) (id pid : Nat) (l : List Value)
        (m : List (String × Value)) (x : Value),
      (getN h id).prev = some pid → pid ≠ id →
      (getN h id).data = Value.arr l →
      (getN h pid).data = Value.vmap m →
      (Append h id x).map (fun h2 =>
          (mapEntry (getN h2 pid).data (getN h id).prevKey, (getN h2 id).data)) =
        Except.ok (some (Value.arr (l ++ [unwrapIn h (unwrapIn h x)])),
          Value.arr (l ++ [unwrapIn h (unwrapIn h x)]))) ∧
    (∀ (h : Heap) (id pid : Nat) (l pl : List Value) (x : Value),
      (getN h id).prev = some pid → pid ≠ id →
      (getN h id).data = Value.arr l →
      (getN h pid).data = Value.arr pl →
      0 ≤ (getN h id).prevIndex → (getN h id).prevIndex.toNat < pl.length →
      (Append h id x).map (fun h2 => ((getN h2 pid).data, (getN h2 id).data)) =
        Except.ok (Value.arr (pl.set (getN h id).prevIndex.toNat
            (Value.arr (l ++ [unwrapIn h (unwrapIn h x)]))),
          Value.arr (l ++ [unwrapIn h (unwrapIn h x)]))) := by
  constructor
  · intro h id pid l m x hp hpid hd hpd
    rw [Append_arr h id l x hd]
    have hp1 : (getN (setN h id { getN h id with
        data := Value.arr (l ++ [unwrapIn h (unwrapIn h x)]) }) id).prev = some pid := by
      rw [getN_setN_same]; exact hp
    have hd1 : (getN (setN h id { getN h id with
        data := Value.arr (l ++ [unwrapIn h (unwrapIn h x)]) }) pid).data =
        Value.vmap m := by
      rw [getN_setN_other _ _ _ _ hpid]; exact hpd
    rw [maintainParent_vmap _ id pid m hp1 hd1]
    simp only [Except.map]
    rw [getN_setN_same, getN_setN_other _ _ _ _ (Ne.symm hpid), getN_setN_same]
    simp [mapEntry, lookupA_setAssoc]
  · intro h id pid l pl x hp hpid hd hpd h0 hl
    rw [Append_arr h id l x hd]
    have hp1 : (getN (setN h id { getN h id with
        data := Value.arr (l ++ [unwrapIn h (unwrapIn h x)]) }) id).prev = some pid := by
      rw [getN_setN_same]; exact hp
    have hd1 : (getN (setN h id { getN h id with
        data := Value.arr (l ++ [unwrapIn h (unwrapIn h x)]) }) pid).data =
        Value.arr pl := by
      rw [getN_setN_other _ _ _ _ hpid]; exact hpd
    have h01 : 0 ≤ (getN (setN h id { getN h id with
        data := Value.arr (l ++ [unwrapIn h (unwrapIn h x)]) }) id).prevIndex := by
      rw [getN_setN_same]; exact h0
    have hl1 : (getN (setN h id { getN h id with
        data := Value.arr (l ++ [unwrapIn h (unwrapIn h x)]) }) id).prevIndex.toNat <
        pl.length := by
      rw [getN_setN_same]; exact hl
    rw [maintainParent_arr _ id pid pl hp1 hd1 h01 hl1]
    simp only [Except.map]
    rw [getN_setN_same, getN_setN_other _ _ _ _ (Ne.symm hpid), getN_setN_same]

/-- Claim C1 witness: the amended theorem applied to the concrete two-node
raw map document, with the hypotheses discharged by computation. -/
theorem gojson_c1_witness :
    (Append mapParentHeap 1 (Value.intV 2)).map (fun h2 =>
        (mapEntry (getN h2 0).data (getN mapParentHeap 1).prevKey,
         (getN h2 1).data)) =
      Except.ok (some (Value.arr [Value.intV 1, Value.intV 2]),
        Value.arr [Value.intV 1, Value.intV 2]) := by
  simpa [unwrapIn] using
    gojson_c1.1 mapParentHeap 1 0 [Value.intV 1]
      [("a", Value.arr [Value.intV 1])] (Value.intV 2) rfl (by decide) rfl rfl

theorem getD_append_len : (l1 : List Value) → (x : Value) → (l2 : List Value) →
    (d : Value) → (l1 ++ x :: l2).getD l1.length d = x
  | [], x, l2, d => by simp
  | a :: t, x, l2, d => by simpa using getD_append_len t x l2 d

theorem getD_append_lt (l1 l2 : List Value) :
    ∀ (j : Nat) (d : Value), j < l1.length → (l1 ++ l2).getD j d = l1.getD j d := by
  induction l1 with
  | nil => intro j d h; simp at h
  | cons a t ih =>
      intro j d h
      cases j with
      | zero => simp
      | succ j2 => simpa using ih j2 d (by simpa using h)

theorem getD_take_lt (v : List Value) :
    ∀ (i j : Nat) (d : Value), j < i → (v.take i).getD j d = v.getD j d := by
  induction v with
  | nil => intro i j d _; simp
  | cons a t ih =>
      intro i j d h
      cases i with
      | zero => omega
      | succ i2 =>
          cases j with
          | zero => simp
          | succ j2 => simpa using ih i2 j2 d (by omega)

theorem getD_set_self (v : List Value) :
    ∀ (i : Nat) (a d : Value), i < v.length → (v.set i a).getD i d = a := by
  induction v with
  | nil => intro i a d h; simp at h
  | cons b t ih =>
      intro i a d h
      cases i with
      | zero => simp
      | succ i2 => simpa using ih i2 a d (by simpa using h)

theorem getD_set_ne (v : List Value) :
    ∀ (i j : Nat) (a d : Value), j ≠ i → (v.set i a).getD j d = v.getD j d := by
  induction v with
  | nil => intro i j a d _; simp
  | cons b t ih =>
      intro i j a d h
      cases i with
      | zero =>
          cases j with
          | zero => exact absurd rfl h
          | succ j2 => simp
      | succ i2 =>
          cases j with
          | zero => simp
          | succ j2 => simpa using ih i2 j2 a d (by omega)

/-- Claim C10 counterexample: the concrete scenario of a Dict parent whose
element a is the slice [1,2], with the child obtained through Get (so the
child's slice is the same header as the parent's stored element).  The
child's Insert(0,7) runs insertSlice, whose append(v[0:0], 7) writes the
shared backing array in place at position 0; read back through the parent's
stored element the container is [7,2] when the backing has no spare
capacity (the second append reallocates) and [7,1] when it does (the tail
is shifted in place) - in either capacity regime it is no longer [1,2], so
the parent's container is NOT left entirely unchanged. -/
theorem gojson_c10_counterexample :
    insertAliasEffect 2 [Value.intV 1, Value.intV 2] 0 (Value.intV 7) =
      [Value.intV 7, Value.intV 2] ∧
    insertAliasEffect 3 [Value.intV 1, Value.intV 2] 0 (Value.intV 7) =
      [Value.intV 7, Value.intV 1] ∧
    ([Value.intV 7, Value.intV 2] : List Value) ≠ [Value.intV 1, Value.intV 2] ∧
    ([Value.intV 7, Value.intV 1] : List Value) ≠ [Value.intV 1, Value.intV 2] := by
  refine ⟨rfl, rfl, by simp, by simp⟩

/-- Claim C10, amended: write-back propagation occurs only when the
parent's Value is the raw map or raw slice shape; for a Dict or List parent
maintainParent skips the write-back entirely.  After a successful Append
the child holds the grown sequence and the parent's node and container are
observationally unchanged (the in-place write lands beyond every alias's
length).  After a successful Insert the child holds the inserted sequence
and no write-back occurs, but the parent's stored element - which shares
the child's old backing array - is mutated in place whenever the insert
position is below the old length: for every capacity the aliased view keeps
its length, its element at the insert position becomes the inserted value,
and only the elements before that position are guaranteed unchanged. -/
theorem gojson_c10 :
    (∀ (h : Heap) (id pid : Nat) (l : List Value)
        (d : List (String × Value)) (x : Value),
      (getN h id).prev = some pid → pid ≠ id →
      (getN h id).data = Value.arr l →
      (getN h pid).data = Value.dict d →
      (Append h id x).map (fun h2 => ((getN h2 pid).data, (getN h2 id).data)) =
        Except.ok (Value.dict d,
          Value.arr (l ++ [unwrapIn h (unwrapIn h x)]))) ∧
    (∀ (h : Heap) (id pid : Nat) (l pl : List Value) (x : Value),
      (getN h id).prev = some pid → pid ≠ id →
      (getN h id).data = Value.arr l →
      (getN h pid).data = Value.list pl →
      (Append h id x).map (fun h2 => ((getN h2 pid).data, (getN h2 id).data)) =
        Except.ok (Value.list pl,
          Value.arr (l ++ [unwrapIn h (unwrapIn h x)]))) ∧
    (∀ (h : Heap) (id pid : Nat) (d : List (String × Value)),
      (getN h id).prev = some pid →
      (getN h pid).data = Value.dict d →
      maintainParent h id = Except.ok h) ∧
    (∀ (h : Heap) (id pid : Nat) (pl : List Value),
      (getN h id).prev = some pid →
      (getN h pid).data = Value.list pl →
      maintainParent h id = Except.ok h) ∧
    (∀ (h : Heap) (id pid : Nat) (i : Int) (l : List Value)
        (d : List (String × Value)) (x : Value),
      (getN h id).prev = some pid → pid ≠ id →
      (getN h id).data = Value.arr l →
      (getN h pid).data = Value.dict d →
      0 ≤ i → i.toNat ≤ l.length →
      (Insert h id i x).map (fun h2 => (getN h2 id).data) =
        Except.ok (Value.arr (l.take i.toNat ++ unwrapIn h x :: l.drop i.toNat))) ∧
    (∀ (h : Heap) (id pid : Nat) (i : Int) (l pl : List Value) (x : Value),
      (getN h id).prev = some pid → pid ≠ id →
      (getN h id).data = Value.arr l →
      (getN h pid).data = Value.list pl →
      0 ≤ i → i.toNat ≤ l.length →
      (Insert h id i x).map (fun h2 => (getN h2 id).data) =
        Except.ok (Value.arr (l.take i.toNat ++ unwrapIn h x :: l.drop i.toNat))) ∧
    (∀ (c : Nat) (v : List Value) (i : Nat) (val : Value),
      v.length ≤ c → i < v.length →
      (insertAliasEffect c v i val).length = v.length ∧
      (insertAliasEffect c v i val).getD i Value.null = val ∧
      ∀ j, j < i →
        (insertAliasEffect c v i val).getD j Value.null = v.getD j Value.null) := by
  refine ⟨?_, ?_, ?_, ?_, ?_, ?_, ?_⟩
  · intro h id pid l d x hp hpid hd hpd
    rw [Append_arr h id l x hd]
    have hp1 : (getN (setN h id { getN h id with
        data := Value.arr (l ++ [unwrapIn h (unwrapIn h x)]) }) id).prev = some pid := by
      rw [getN_setN_same]; exact hp
    have hd1 : (getN (setN h id { getN h id with
        data := Value.arr (l ++ [unwrapIn h (unwrapIn h x)]) }) pid).data =
        Value.dict d := by
      rw [getN_setN_other _ _ _ _ hpid]; exact hpd
    rw [maintainParent_dict _ id pid d hp1 hd1]
    simp only [Except.map]
    rw [getN_setN_other _ _ _ _ hpid, getN_setN_same, hpd]
  · intro h id pid l pl x hp hpid hd hpd
    rw [Append_arr h id l x hd]
    have hp1 : (getN (setN h id { getN h id with
        data := Value.arr (l ++ [unwrapIn h (unwrapIn h x)]) }) id).prev = some pid := by
      rw [getN_setN_same]; exact hp
    have hd1 : (getN (setN h id { getN h id with
        data := Value.arr (l ++ [unwrapIn h (unwrapIn h x)]) }) pid).data =
        Value.list pl := by
      rw [getN_setN_other _ _ _ _ hpid]; exact hpd
    rw [maintainParent_list _ id pid pl hp1 hd1]
    simp only [Except.map]
    rw [getN_setN_other _ _ _ _ hpid, getN_setN_same, hpd]
  · intro h id pid d hp hpd
    exact maintainParent_dict h id pid d hp hpd
  · intro h id pid pl hp hpd
    exact maintainParent_list h id pid pl hp hpd
  · intro h id pid i l d x hp hpid hd hpd h0 hl
    rw [Insert_arr h id i l x hd h0 hl]
    have hp1 : (getN (setN h id { getN h id with
        data := Value.arr (l.take i.toNat ++ unwrapIn h x :: l.drop i.toNat) })
          id).prev = some pid := by
      rw [getN_setN_same]; exact hp
    have hd1 : (getN (setN h id { getN h id with
        data := Value.arr (l.take i.toNat ++ unwrapIn h x :: l.drop i.toNat) })
          pid).data = Value.dict d := by
      rw [getN_setN_other _ _ _ _ hpid]; exact hpd
    rw [maintainParent_dict _ id pid d hp1 hd1]
    simp only [Except.map]
    rw [getN_setN_same]
  · intro h id pid i l pl x hp hpid hd hpd h0 hl
    rw [Insert_arr h id i l x hd h0 hl]
    have hp1 : (getN (setN h id { getN h id with
        data := Value.arr (l.take i.toNat ++ unwrapIn h x :: l.drop i.toNat) })
          id).prev = some pid := by
      rw [getN_setN_same]; exact hp
    have hd1 : (getN (setN h id { getN h id with
        data := Value.arr (l.take i.toNat ++ unwrapIn h x :: l.drop i.toNat) })
          pid).data = Value.list pl := by
      rw [getN_setN_other _ _ _ _ hpid]; exact hpd
    rw [maintainParent_list _ id pid pl hp1 hd1]
    simp only [Except.map]
    rw [getN_setN_same]
  · intro c v i val hc hi
    unfold insertAliasEffect
    by_cases hcap : v.length + 1 ≤ c
    · rw [if_pos hcap]
      refine ⟨?_, ?_, ?_⟩
      · simp only [List.length_append, List.length_cons, List.length_take,
          List.length_drop]
        omega
      · have hlen : (v.take i).length = i := by
          simp only [List.length_take]
          omega
        have := getD_append_len (v.take i) val
          ((v.drop i).take (v.length - i - 1)) Value.null
        rw [hlen] at this
        exact this
      · intro j hj
        rw [getD_append_lt _ _ j _ (by simp only [List.length_take]; omega),
          getD_take_lt v i j _ hj]
    · rw [if_neg hcap]
      exact ⟨by simp, getD_set_self v i val Value.null hi,
        fun j hj => getD_set_ne v i j val Value.null (by omega)⟩

/-- Claim C10 witness: the theorem applied to the concrete Dict-parent
document: Append updates the child and keeps the Dict parent intact, the
write-back is skipped, Insert updates the child's own value, and the
aliased parent element of the [1,2] scenario reads 7 at position 0. -/
theorem gojson_c10_witness :
    (Append dictParentHeap 1 (Value.intV 2)).map
        (fun h2 => ((getN h2 0).data, (getN h2 1).data)) =
      Except.ok (Value.dict [("a", Value.arr [Value.intV 1])],
        Value.arr [Value.intV 1, Value.intV 2]) ∧
    maintainParent dictParentHeap 1 = Except.ok dictParentHeap ∧
    (Insert dictParentHeap 1 0 (Value.intV 7)).map (fun h2 => (getN h2 1).data) =
      Except.ok (Value.arr [Value.intV 7, Value.intV 1]) ∧
    (insertAliasEffect 2 [Value.intV 1, Value.intV 2] 0 (Value.intV 7)).getD 0
        Value.null = Value.intV 7 := by
  refine ⟨?_, ?_, ?_, ?_⟩
  · simpa [unwrapIn] using
      gojson_c10.1 dictParentHeap 1 0 [Value.intV 1]
        [("a", Value.arr [Value.intV 1])] (Value.intV 2) rfl (by decide) rfl rfl
  · exact gojson_c10.2.2.1 dictParentHeap 1 0
      [("a", Value.arr [Value.intV 1])] rfl rfl
  · simpa [unwrapIn] using
      gojson_c10.2.2.2.2.1 dictParentHeap 1 0 0 [Value.intV 1]
        [("a", Value.arr [Value.intV 1])] (Value.intV 7) rfl (by decide) rfl rfl
        (by norm_num) (by norm_num)
  · exact (gojson_c10.2.2.2.2.2.2 2 [Value.intV 1, Value.intV 2] 0 (Value.intV 7)
      (by norm_num) (by norm_num)).2.1

end Gojson
